/-
Verification of the session state machine and effects-application engine of
the ai-rpg-game repository, as a shallow embedding in Lean 4.

Source of truth:
  * src/app/api/ai/route.ts   — applyEffects, safeExtractEffects, POST handler
  * src/lib/game.ts           — GameState / Player / GameStats / GameClass types
  * src/unnamed/part_002      — guessRelevantStat (dice-resolver stat selection)

Modelling conventions:
  * JavaScript numbers holding game quantities (hp, mana, stats) are modelled
    as Int; every operation used on them (comparison, Math.max, Math.min)
    is order-theoretic and carries over verbatim.
  * The untrusted `eff: any` payload is modelled as a record of Option fields:
    `typeof eff.f === 'string'` (etc.) succeeding corresponds to the field
    being `some _`, failing to `none` — exactly the field-present/absent
    distinction the dynamic type checks implement.
  * GameState fields that applyEffects never reads nor writes (world, story,
    messages, stateVersion, activeIndex and the legacy stats/hp/mana/inventory
    fallbacks — all merely copied by structuredClone) are elided from the
    embedding; they are trivially preserved by the function.
  * `outcome` is `'win' | 'lose' | null` in the TS type, but applyEffects
    assigns any string arriving in `eff.outcome`; we model it as Option String.
-/
import Mathlib

namespace AiRpg

/-- Character classes, from src/lib/game.ts (`GameClass`):
'Wojownik' (Warrior), 'Mag' (Mage), 'Łotrzyk' (Rogue), 'Zielarz' (Herbalist). -/
inductive GameClass where
  | wojownik
  | mag
  | lotrzyk
  | zielarz
deriving DecidableEq

/-- Base statistics of a character, from src/lib/game.ts (`GameStats`). -/
structure GameStats where
  strength : Int
  dexterity : Int
  wisdom : Int
  hpBase : Int
  manaBase : Int
  gold : Int
deriving DecidableEq

/-- One party member, from src/lib/game.ts (`Player`). -/
structure Player where
  id : String
  name : String
  cls : GameClass
  stats : GameStats
  hp : Int
  mana : Int
  inventory : List String
deriving DecidableEq

/-- The session state, from src/lib/game.ts (`GameState`), restricted to the
fields applyEffects reads or writes (see the header comment). -/
structure GameState where
  players : List Player
  questLog : List String
  goal : Option String
  isOver : Bool
  outcome : Option String
deriving DecidableEq

/-- The untrusted effects payload consumed by applyEffects
(src/app/api/ai/route.ts). Each field is `some _` exactly when the
corresponding dynamic type check (`typeof … === …` / `Array.isArray`)
succeeds on the JS value. -/
structure Effect where
  goal : Option String := none
  questLog : Option (List String) := none
  isOver : Option Bool := none
  outcome : Option String := none
  actorHp : Option Int := none
  actorMana : Option Int := none
  actorInventory : Option (List String) := none
  actorAddItems : Option (List String) := none
  actorRemoveItems : Option (List String) := none
deriving DecidableEq

/-- The addItems loop of applyEffects:
`for (const it of eff.actorAddItems) if (!actor.inventory.includes(it)) actor.inventory.push(it)`. -/
def addItemsFold (inv : List String) (items : List String) : List String :=
  items.foldl (fun acc it => if acc.contains it then acc else acc ++ [it]) inv

/-- The acting-player block of applyEffects (src/app/api/ai/route.ts lines
107-116), transcribed update by update: clamp hp, clamp mana, wholesale
inventory replacement, addItems loop, removeItems filter — in that order,
the three inventory updates chaining into one another. -/
def applyActor (p : Player) (eff : Effect) : Player :=
  let hp1 := match eff.actorHp with
    | some v => max 0 (min p.stats.hpBase v)
    | none => p.hp
  let mana1 := match eff.actorMana with
    | some v => max 0 (min p.stats.manaBase v)
    | none => p.mana
  let inv1 := match eff.actorInventory with
    | some l => l
    | none => p.inventory
  let inv2 := match eff.actorAddItems with
    | some items => addItemsFold inv1 items
    | none => inv1
  let inv3 := match eff.actorRemoveItems with
    | some items => inv2.filter (fun it => !(items.contains it))
    | none => inv2
  { p with hp := hp1, mana := mana1, inventory := inv3 }

/-- The state reducer `applyEffects(current, eff, actorIndex)` of
src/app/api/ai/route.ts lines 98-125: global field overwrites, then the
acting-player update (skipped when the index has no player), then the
unconditional auto-lose check `next.players.length && next.players.every(p => p.hp <= 0)`. -/
def applyEffects (current : GameState) (eff : Effect) (actorIndex : Nat) : GameState :=
  let next : GameState :=
    { current with
      goal := (match eff.goal with | some g => some g | none => current.goal),
      questLog := eff.questLog.getD current.questLog,
      isOver := eff.isOver.getD current.isOver,
      outcome := (match eff.outcome with | some o => some o | none => current.outcome) }
  let next2 : GameState :=
    match next.players[actorIndex]? with
    | some actor => { next with players := next.players.set actorIndex (applyActor actor eff) }
    | none => next
  if !next2.players.isEmpty && next2.players.all (fun p => decide (p.hp ≤ 0)) then
    { next2 with isOver := true, outcome := some "lose" }
  else
    next2

/-! Effects validator: safeExtractEffects and the narration strip,
from src/app/api/ai/route.ts lines 89-96 (safeExtractEffects) and line 82
(the narration: the raw text with every regex-delimited block replaced by
the empty string under the global flag, then trimmed).

The JS regex pair-matches literal triple-backtick delimiters lazily and
left-to-right; for a fixed literal delimiter this coincides with a single
left-to-right scan that cuts the text at every non-overlapping delimiter
occurrence.  We therefore model the text as a `List Char` split at every
triple-backtick, extract the first inter-delimiter segment as the matched
block, and rebuild the replace-all result by dropping every fully paired
block.  `JSON.parse` is an external runtime facility; it is passed in as a
parameter `jp : List Char → Option Json`, with `none` modelling a throw. -/

/-- The backtick character (U+0060), the delimiter unit of the effects block. -/
def tk : Char := Char.ofNat 96

/-- A parsed JSON value (the possible results of a successful `JSON.parse`). -/
inductive Json where
  | jnull
  | jbool (b : Bool)
  | jnum (n : Int)
  | jstr (s : String)
  | jarr (elems : List Json)
  | jobj (fields : List (String × Json))

/-- The guard `obj && typeof obj === 'object'` of safeExtractEffects:
true for JS objects and arrays, false for null (falsy) and all primitives. -/
def isTruthyObject : Json → Bool
  | Json.jobj _ => true
  | Json.jarr _ => true
  | _ => false

/-- Split a character list at every (non-overlapping, leftmost-first)
occurrence of the triple-backtick delimiter.  `n` delimiter occurrences
yield `n + 1` segments. -/
def splitTicks : List Char → List (List Char)
  | a :: b :: c :: rest =>
    if a = tk ∧ b = tk ∧ c = tk then
      [] :: splitTicks rest
    else
      match splitTicks (b :: c :: rest) with
      | [] => [[a]]
      | p :: ps => (a :: p) :: ps
  | l => [l]

/-- Rebuild the original text from its `splitTicks` segments. -/
def joinTicks : List (List Char) → List Char
  | [] => []
  | [p] => p
  | p :: q :: ps => p ++ [tk, tk, tk] ++ joinTicks (q :: ps)

/-- `text.match(...)`: the contents of the first delimited block, i.e. the
segment between the first two delimiter occurrences, if they exist. -/
def extractBlock (l : List Char) : Option (List Char) :=
  match splitTicks l with
  | _ :: b :: _ :: _ => some b
  | _ => none

/-- `text.replace(..., '')` with the global flag: successive delimiter pairs
and their contents are dropped; a final unpaired delimiter survives. -/
def stripParts : List (List Char) → List Char
  | [] => []
  | [p] => p
  | [p, q] => p ++ [tk, tk, tk] ++ q
  | p :: _ :: q :: ps => p ++ stripParts (q :: ps)

/-- The narration strip: every fully delimited block removed from the text. -/
def stripBlocks (l : List Char) : List Char :=
  stripParts (splitTicks l)

/-- `String.prototype.trim()`: surrounding whitespace removed from both ends. -/
def jsTrim (l : List Char) : List Char :=
  ((l.dropWhile Char.isWhitespace).reverse.dropWhile Char.isWhitespace).reverse

/-- The narration computed by the POST handler (route.ts line 82): the raw
narrator output with every delimited block stripped, then trimmed. -/
def narrationOf (l : List Char) : List Char :=
  jsTrim (stripBlocks l)

/-- `safeExtractEffects(text)` of src/app/api/ai/route.ts lines 89-96:
take the first delimited block, run `JSON.parse` (the parameter `jp`;
`none` = the parse threw), and return the value only when it is a truthy
object; in every other case return null (`none`). -/
def safeExtractEffects (jp : List Char → Option Json) (l : List Char) : Option Json :=
  match extractBlock l with
  | none => none
  | some b =>
    match jp b with
    | some v => if isTruthyObject v then some v else none
    | none => none

/-! Dice resolver relevant-stat selection, from src/unnamed/part_002
lines 229-239 (`guessRelevantStat`). -/

/-- A relevant statistic name, the result of `guessRelevantStat`. -/
inductive StatKey where
  | strength
  | dexterity
  | wisdom
deriving DecidableEq

/-- `String.prototype.toLowerCase()` restricted to the Latin and Polish
alphabet this application's text uses (ASCII letters plus the Polish
diacritic uppercase letters). -/
def jsToLower (c : Char) : Char :=
  if 'A' ≤ c ∧ c ≤ 'Z' then Char.ofNat (c.toNat + 32)
  else if c = 'Ą' then 'ą'
  else if c = 'Ć' then 'ć'
  else if c = 'Ę' then 'ę'
  else if c = 'Ł' then 'ł'
  else if c = 'Ń' then 'ń'
  else if c = 'Ó' then 'ó'
  else if c = 'Ś' then 'ś'
  else if c = 'Ź' then 'ź'
  else if c = 'Ż' then 'ż'
  else c

/-- `haystack.includes(needle)`: substring containment on character lists. -/
def hasSub (needle : List Char) : List Char → Bool
  | [] => needle.isEmpty
  | c :: rest => needle.isPrefixOf (c :: rest) || hasSub needle rest

/-- `guessRelevantStat(action, cls)` of src/unnamed/part_002: lowercase the
action text, scan for domain keywords in source order (combat → strength,
social → wisdom, stealth/search → dexterity, magic → wisdom), otherwise fall
back to the per-class default, and to strength when `cls` is null. -/
def guessRelevantStat (action : List Char) (cls : Option GameClass) : StatKey :=
  let a := action.map jsToLower
  if hasSub "atak".data a || hasSub "cios".data a || hasSub "walcz".data a then
    StatKey.strength
  else if hasSub "rozm".data a || hasSub "persw".data a || hasSub "ucisz".data a || hasSub "negoc".data a then
    StatKey.wisdom
  else if hasSub "szuk".data a || hasSub "skr".data a || hasSub "unik".data a || hasSub "zwin".data a then
    StatKey.dexterity
  else if hasSub "czar".data a || hasSub "zakl".data a || hasSub "mag".data a then
    StatKey.wisdom
  else if cls = some GameClass.wojownik then
    StatKey.strength
  else if cls = some GameClass.lotrzyk then
    StatKey.dexterity
  else if cls = some GameClass.mag ∨ cls = some GameClass.zielarz then
    StatKey.wisdom
  else
    StatKey.strength

/-! Helper lemmas: field-level descriptions of applyActor and applyEffects. -/

/-- The well-formedness bounds on a player demanded by the spec's data model. -/
def WFPlayer (p : Player) : Prop :=
  0 ≤ p.hp ∧ p.hp ≤ p.stats.hpBase ∧ 0 ≤ p.mana ∧ p.mana ≤ p.stats.manaBase

instance (p : Player) : Decidable (WFPlayer p) := by
  unfold WFPlayer; infer_instance

/-- The party list as it stands when the auto-lose check runs. -/
def playersAfter (s : GameState) (eff : Effect) (i : Nat) : List Player :=
  match s.players[i]? with
  | some a => s.players.set i (applyActor a eff)
  | none => s.players

/-- The auto-lose condition of applyEffects, evaluated on the updated party. -/
def wipedAfter (s : GameState) (eff : Effect) (i : Nat) : Bool :=
  !(playersAfter s eff i).isEmpty && (playersAfter s eff i).all (fun p => decide (p.hp ≤ 0))

/-! Concrete sample data for witnesses and counterexamples, built from the
Warrior template of src/lib/game.ts (`defaultStatsFor('Wojownik')`). -/

def sampleStats : GameStats :=
  { strength := 4, dexterity := 1, wisdom := 0, hpBase := 30, manaBase := 5, gold := 10 }

def samplePlayer : Player :=
  { id := "p1", name := "Alder", cls := GameClass.wojownik, stats := sampleStats,
    hp := 5, mana := 3, inventory := ["Tarcza drewniana"] }

def sampleState : GameState :=
  { players := [samplePlayer], questLog := [], goal := none, isOver := false, outcome := none }

def sampleTerminal : GameState :=
  { sampleState with isOver := true }

/-- The reducer fold over a whole sequence of turns. -/
def applySeq (s : GameState) (steps : List (Effect × Nat)) : GameState :=
  steps.foldl (fun st step => applyEffects st step.1 step.2) s

/-- An effect that only rewrites the mission goal. -/
def effGoal : Effect := { goal := some "Nowy cel" }

/-- The spec's killing effect: hp driven far below zero while the narrator
simultaneously declares a win and denies the session is over. -/
def effKill : Effect := { actorHp := some (-100), outcome := some "win", isOver := some false }

def emptyState : GameState :=
  { players := [], questLog := [], goal := none, isOver := false, outcome := none }

/-- An effect carrying both a wholesale inventory replacement and an
addItems delta — the C4 configuration. -/
def effBoth : Effect :=
  { actorInventory := some ["Miecz"], actorAddItems := some ["Pochodnia"] }

/-- An effect whose wholesale inventory replacement list itself carries a
duplicate — the C5 counterexample configuration. -/
def effDup : Effect := { actorInventory := some ["Pochodnia", "Pochodnia"] }

/-- The effect of the C6 scenario: `addItems: ["Torch"]` and nothing else. -/
def addTorchEff : Effect := { actorAddItems := some ["Torch"] }

/-- A parse function that always throws — the simplest concrete stand-in for
`JSON.parse` on non-JSON block contents. -/
def jpFail : List Char → Option Json := fun _ => none

lemma applyActor_stats (p : Player) (eff : Effect) :
    (applyActor p eff).stats = p.stats := rfl

lemma applyActor_hp (p : Player) (eff : Effect) :
    (applyActor p eff).hp =
      match eff.actorHp with
      | some v => max 0 (min p.stats.hpBase v)
      | none => p.hp := rfl

lemma applyActor_mana (p : Player) (eff : Effect) :
    (applyActor p eff).mana =
      match eff.actorMana with
      | some v => max 0 (min p.stats.manaBase v)
      | none => p.mana := rfl

lemma applyActor_inventory (p : Player) (eff : Effect) :
    (applyActor p eff).inventory =
      (match eff.actorRemoveItems with
       | some items =>
         (match eff.actorAddItems with
          | some ad => addItemsFold (match eff.actorInventory with
                                     | some l => l
                                     | none => p.inventory) ad
          | none => (match eff.actorInventory with
                     | some l => l
                     | none => p.inventory)).filter (fun it => !(items.contains it))
       | none =>
         match eff.actorAddItems with
         | some ad => addItemsFold (match eff.actorInventory with
                                    | some l => l
                                    | none => p.inventory) ad
         | none => (match eff.actorInventory with
                    | some l => l
                    | none => p.inventory)) := rfl

lemma applyEffects_players (s : GameState) (eff : Effect) (i : Nat) :
    (applyEffects s eff i).players = playersAfter s eff i := by
  unfold applyEffects playersAfter
  cases h : s.players[i]? <;> simp [h] <;> split <;> rfl

lemma applyEffects_goal (s : GameState) (eff : Effect) (i : Nat) :
    (applyEffects s eff i).goal =
      match eff.goal with
      | some g => some g
      | none => s.goal := by
  unfold applyEffects
  cases h : s.players[i]? <;> simp [h] <;> split <;> rfl

lemma applyEffects_questLog (s : GameState) (eff : Effect) (i : Nat) :
    (applyEffects s eff i).questLog = eff.questLog.getD s.questLog := by
  unfold applyEffects
  cases h : s.players[i]? <;> simp [h] <;> split <;> rfl

lemma applyEffects_isOver (s : GameState) (eff : Effect) (i : Nat) :
    (applyEffects s eff i).isOver = (wipedAfter s eff i || eff.isOver.getD s.isOver) := by
  unfold applyEffects wipedAfter playersAfter
  cases h : s.players[i]? <;> simp [h] <;> split <;> simp_all

lemma applyEffects_outcome (s : GameState) (eff : Effect) (i : Nat) :
    (applyEffects s eff i).outcome =
      if wipedAfter s eff i then some "lose"
      else
        match eff.outcome with
        | some o => some o
        | none => s.outcome := by
  unfold applyEffects wipedAfter playersAfter
  cases h : s.players[i]? <;> simp [h] <;> split <;> simp_all

/-- Clamping an hp value into `[0, hpBase]` (and mana likewise) lands in the
interval whenever the ceiling is non-negative. -/
lemma clamp_bounds (hi v : Int) (h : 0 ≤ hi) :
    0 ≤ max 0 (min hi v) ∧ max 0 (min hi v) ≤ hi :=
  ⟨le_max_left 0 _, max_le h (min_le_left hi v)⟩

/-- applyActor preserves the hp/mana well-formedness bounds. -/
lemma WFPlayer_applyActor (p : Player) (eff : Effect) (h : WFPlayer p) :
    WFPlayer (applyActor p eff) := by
  obtain ⟨h1, h2, h3, h4⟩ := h
  have hhp : 0 ≤ p.stats.hpBase := le_trans h1 h2
  have hmp : 0 ≤ p.stats.manaBase := le_trans h3 h4
  unfold WFPlayer
  rw [applyActor_stats, applyActor_hp, applyActor_mana]
  cases eff.actorHp with
  | none =>
    cases eff.actorMana with
    | none => exact ⟨h1, h2, h3, h4⟩
    | some v =>
      exact ⟨h1, h2, (clamp_bounds _ v hmp).1, (clamp_bounds _ v hmp).2⟩
  | some w =>
    cases eff.actorMana with
    | none =>
      exact ⟨(clamp_bounds _ w hhp).1, (clamp_bounds _ w hhp).2, h3, h4⟩
    | some v =>
      exact ⟨(clamp_bounds _ w hhp).1, (clamp_bounds _ w hhp).2,
        (clamp_bounds _ v hmp).1, (clamp_bounds _ v hmp).2⟩

/-- One reducer step preserves party-wide well-formedness. -/
lemma WF_applyEffects (s : GameState) (eff : Effect) (i : Nat)
    (h : ∀ p ∈ s.players, WFPlayer p) :
    ∀ p ∈ (applyEffects s eff i).players, WFPlayer p := by
  rw [applyEffects_players]
  unfold playersAfter
  cases ha : s.players[i]? with
  | none => exact h
  | some a =>
    intro p hp
    rcases List.mem_or_eq_of_mem_set hp with hm | rfl
    · exact h p hm
    · exact WFPlayer_applyActor a eff (h a (List.getElem?_mem ha))

/-- The reducer never changes the party size. -/
lemma length_playersAfter (s : GameState) (eff : Effect) (i : Nat) :
    (playersAfter s eff i).length = s.players.length := by
  unfold playersAfter
  cases ha : s.players[i]? <;> simp

/-- C1: a session whose players all satisfy `0 ≤ hp ≤ stats.hpBase` and
`0 ≤ mana ≤ stats.manaBase` still satisfies those bounds for every player
after applyEffects is applied for any sequence of effects and acting-player
indices — in particular after any single call. -/
theorem hp_mana_bounds_preserved (s : GameState) (steps : List (Effect × Nat))
    (h : ∀ p ∈ s.players, WFPlayer p) :
    ∀ p ∈ (applySeq s steps).players, WFPlayer p := by
  induction steps generalizing s with
  | nil => exact h
  | cons st rest ih => exact ih (applyEffects s st.1 st.2) (WF_applyEffects s st.1 st.2 h)

theorem hp_mana_bounds_preserved_witness :
    (∀ p ∈ sampleState.players, WFPlayer p) ∧
    ∀ p ∈ (applySeq sampleState
            [({ actorHp := some (-100) }, 0), ({ actorMana := some 99 }, 0)]).players,
      WFPlayer p :=
  ⟨by decide,
    hp_mana_bounds_preserved sampleState
      [({ actorHp := some (-100) }, 0), ({ actorMana := some 99 }, 0)] (by decide)⟩

/-- C2 counterexample: applyEffects contains no terminal-session guard.  On a
concrete session with `isOver = true`, an effect carrying a new goal changes
the goal field, so the reducer does not return the session unchanged. -/
theorem terminal_session_mutates :
    sampleTerminal.isOver = true ∧
    (applyEffects sampleTerminal effGoal 0).goal ≠ sampleTerminal.goal := by
  decide

/-- C2 amended: the reducer has no terminal guard; a session with
`isOver = true` has the effect applied to it exactly as a non-terminal session
would (players, goal, questLog and outcome are computed identically), and its
isOver flag is simply the effect's value (defaulting to true) or the
auto-lose override. -/
theorem terminal_session_applies_effects (s : GameState) (eff : Effect) (i : Nat)
    (hterm : s.isOver = true) :
    (applyEffects s eff i).players = (applyEffects { s with isOver := false } eff i).players ∧
    (applyEffects s eff i).goal = (applyEffects { s with isOver := false } eff i).goal ∧
    (applyEffects s eff i).questLog = (applyEffects { s with isOver := false } eff i).questLog ∧
    (applyEffects s eff i).outcome = (applyEffects { s with isOver := false } eff i).outcome ∧
    (applyEffects s eff i).isOver = (wipedAfter s eff i || eff.isOver.getD true) := by
  refine ⟨?_, ?_, ?_, ?_, ?_⟩
  · rw [applyEffects_players, applyEffects_players]; try rfl
  · rw [applyEffects_goal, applyEffects_goal]; try rfl
  · rw [applyEffects_questLog, applyEffects_questLog]; try rfl
  · rw [applyEffects_outcome, applyEffects_outcome]; try rfl
  · rw [applyEffects_isOver, hterm]

theorem terminal_session_applies_effects_witness :
    sampleTerminal.isOver = true ∧
    (applyEffects sampleTerminal effGoal 0).goal =
      (applyEffects { sampleTerminal with isOver := false } effGoal 0).goal :=
  ⟨rfl, (terminal_session_applies_effects sampleTerminal effGoal 0 rfl).2.1⟩

/-- C3: on a non-terminal session with a non-empty party, if after the effect
is applied every player's hp is 0, the reducer forces `isOver = true` and
`outcome = "lose"`, whatever outcome or isOver value the effect itself
carried. -/
theorem all_dead_forces_lose (s : GameState) (eff : Effect) (i : Nat)
    (hne : s.players ≠ []) (_hlive : s.isOver = false)
    (hall : ∀ p ∈ (applyEffects s eff i).players, p.hp = 0) :
    (applyEffects s eff i).isOver = true ∧
    (applyEffects s eff i).outcome = some "lose" := by
  rw [applyEffects_players] at hall
  have hw : wipedAfter s eff i = true := by
    unfold wipedAfter
    have hlen : (playersAfter s eff i).length = s.players.length :=
      length_playersAfter s eff i
    have hnee : (playersAfter s eff i).isEmpty = false := by
      rcases hq : playersAfter s eff i with _ | ⟨a, rest⟩
      · rw [hq] at hlen
        exact absurd (List.length_eq_zero.mp hlen.symm) hne
      · rfl
    rw [hnee]
    simp only [Bool.not_false, Bool.true_and, List.all_eq_true]
    intro p hp
    have := hall p hp
    simp [this]
  rw [applyEffects_isOver, applyEffects_outcome, hw]
  simp

theorem all_dead_forces_lose_witness :
    (sampleState.players ≠ [] ∧ sampleState.isOver = false ∧
      ∀ p ∈ (applyEffects sampleState effKill 0).players, p.hp = 0) ∧
    (applyEffects sampleState effKill 0).isOver = true ∧
    (applyEffects sampleState effKill 0).outcome = some "lose" :=
  ⟨⟨by decide, rfl, by decide⟩,
    all_dead_forces_lose sampleState effKill 0 (by decide) rfl (by decide)⟩

/-- C10: with an empty party the auto-lose check never fires: isOver and
outcome come only from the effect (or carry over unchanged), so an empty
session is never auto-declared lost. -/
theorem empty_party_no_auto_lose (s : GameState) (eff : Effect) (i : Nat)
    (h : s.players = []) :
    (applyEffects s eff i).isOver = eff.isOver.getD s.isOver ∧
    (applyEffects s eff i).outcome =
      (match eff.outcome with
       | some o => some o
       | none => s.outcome) := by
  have hw : wipedAfter s eff i = false := by
    unfold wipedAfter playersAfter
    rw [h]
    simp
  rw [applyEffects_isOver, applyEffects_outcome, hw]
  simp

theorem empty_party_no_auto_lose_witness :
    emptyState.players = [] ∧
    (applyEffects emptyState { } 0).isOver = false ∧
    (applyEffects emptyState { } 0).outcome = none :=
  ⟨rfl, (empty_party_no_auto_lose emptyState { } 0 rfl).1,
    (empty_party_no_auto_lose emptyState { } 0 rfl).2⟩

/-- C4 counterexample: when a wholesale `actorInventory` and an
`actorAddItems` delta arrive together, the resulting inventory is NOT the
wholesale list alone — the delta is applied on top of it. -/
theorem wholesale_precedence_refuted :
    (applyEffects sampleState effBoth 0).players.map Player.inventory =
      [["Miecz", "Pochodnia"]] ∧
    (["Miecz", "Pochodnia"] : List String) ≠ ["Miecz"] := by
  decide

/-- C4 amended: when the effect carries a wholesale `actorInventory` list,
that list replaces the acting player's inventory first, and any
addItems/removeItems deltas are then applied on top of the replaced list
(wholesale replacement is the starting point of the deltas, not exclusive
of them). -/
theorem wholesale_then_deltas (s : GameState) (eff : Effect) (i : Nat)
    (L : List String) (a : Player)
    (ha : s.players[i]? = some a) (hL : eff.actorInventory = some L) :
    ((applyEffects s eff i).players[i]?).map Player.inventory =
      some (match eff.actorRemoveItems with
            | some items =>
              (match eff.actorAddItems with
               | some ad => addItemsFold L ad
               | none => L).filter (fun it => !(items.contains it))
            | none =>
              match eff.actorAddItems with
              | some ad => addItemsFold L ad
              | none => L) := by
  have hlt : i < s.players.length := by
    rcases List.getElem?_eq_some.mp ha with ⟨hlt, _⟩
    exact hlt
  rw [applyEffects_players]
  unfold playersAfter
  rw [ha, List.getElem?_set_eq_of_lt _ hlt]
  simp only [Option.map_some']
  rw [applyActor_inventory, hL]

theorem wholesale_then_deltas_witness :
    (sampleState.players[0]? = some samplePlayer ∧
      effBoth.actorInventory = some ["Miecz"]) ∧
    ((applyEffects sampleState effBoth 0).players[0]?).map Player.inventory =
      some (addItemsFold ["Miecz"] ["Pochodnia"]) :=
  ⟨⟨rfl, rfl⟩, wholesale_then_deltas sampleState effBoth 0 ["Miecz"] samplePlayer rfl rfl⟩

/-- The addItems loop preserves duplicate-freedom of the inventory. -/
lemma nodup_addItemsFold (items : List String) :
    ∀ inv : List String, inv.Nodup → (addItemsFold inv items).Nodup := by
  induction items with
  | nil => exact fun inv h => h
  | cons it rest ih =>
    intro inv h
    have hstep : addItemsFold inv (it :: rest) =
        addItemsFold (if inv.contains it then inv else inv ++ [it]) rest := rfl
    rw [hstep]
    by_cases hc : inv.contains it = true
    · rw [if_pos hc]
      exact ih inv h
    · rw [if_neg hc]
      refine ih _ ?_
      have hnm : it ∉ inv := by simpa using hc
      simp [List.nodup_append, h, hnm]

/-- C5 counterexample: a wholesale `actorInventory` list containing a
duplicate is installed verbatim, so the no-duplicates invariant is NOT
preserved by the reducer when the wholesale list has duplicates. -/
theorem inventory_nodup_violated :
    (∀ p ∈ sampleState.players, p.inventory.Nodup) ∧
    ¬ (∀ p ∈ (applyEffects sampleState effDup 0).players, p.inventory.Nodup) := by
  decide

/-- C5 amended: starting from a session whose players' inventories are all
duplicate-free, the reducer keeps every inventory duplicate-free provided
the wholesale `actorInventory` list, when present, is itself duplicate-free
(the addItems loop and the removeItems filter preserve the invariant
unconditionally). -/
theorem inventory_nodup_preserved (s : GameState) (eff : Effect) (i : Nat)
    (hinv : ∀ p ∈ s.players, p.inventory.Nodup)
    (hwhole : ∀ L, eff.actorInventory = some L → L.Nodup) :
    ∀ p ∈ (applyEffects s eff i).players, p.inventory.Nodup := by
  rw [applyEffects_players]
  unfold playersAfter
  cases ha : s.players[i]? with
  | none => exact hinv
  | some a =>
    intro p hp
    rcases List.mem_or_eq_of_mem_set hp with hm | rfl
    · exact hinv p hm
    · rw [applyActor_inventory]
      have hbase : (match eff.actorInventory with
                    | some l => l
                    | none => a.inventory).Nodup := by
        cases hI : eff.actorInventory with
        | none => exact hinv a (List.getElem?_mem ha)
        | some L => exact hwhole L hI
      have hadd : (match eff.actorAddItems with
                   | some ad => addItemsFold (match eff.actorInventory with
                                              | some l => l
                                              | none => a.inventory) ad
                   | none => (match eff.actorInventory with
                              | some l => l
                              | none => a.inventory)).Nodup := by
        cases eff.actorAddItems with
        | none => exact hbase
        | some ad => exact nodup_addItemsFold ad _ hbase
      cases eff.actorRemoveItems with
      | none => exact hadd
      | some items => exact hadd.filter _

theorem inventory_nodup_preserved_witness :
    ((∀ p ∈ sampleState.players, p.inventory.Nodup) ∧
      (∀ L, effBoth.actorInventory = some L → L.Nodup)) ∧
    ∀ p ∈ (applyEffects sampleState effBoth 0).players, p.inventory.Nodup := by
  have hw : ∀ L, effBoth.actorInventory = some L → L.Nodup := by
    intro L hL
    have h2 : (some ["Miecz"] : Option (List String)) = some L := hL
    injection h2 with h3
    rw [← h3]
    decide
  exact ⟨⟨by decide, hw⟩, inventory_nodup_preserved sampleState effBoth 0 (by decide) hw⟩

/-- Adding "Torch" once to a duplicate-free inventory makes it occur exactly
once, and adding it a second time changes nothing. -/
lemma addOne_torch (inv : List String) (h : inv.Nodup) :
    (addItemsFold inv ["Torch"]).count "Torch" = 1 ∧
    addItemsFold (addItemsFold inv ["Torch"]) ["Torch"] = addItemsFold inv ["Torch"] := by
  have hstep : ∀ l : List String,
      addItemsFold l ["Torch"] = if l.contains "Torch" then l else l ++ ["Torch"] :=
    fun l => rfl
  by_cases hc : inv.contains "Torch" = true
  · have hmem : "Torch" ∈ inv := by simpa using hc
    refine ⟨?_, ?_⟩
    · rw [hstep, if_pos hc]
      exact List.count_eq_one_of_mem h hmem
    · have hfix : addItemsFold inv ["Torch"] = inv := by rw [hstep, if_pos hc]
      rw [hfix]
      exact hfix
  · have hnm : "Torch" ∉ inv := by simpa using hc
    have hcount : inv.count "Torch" = 0 := List.count_eq_zero.mpr hnm
    refine ⟨?_, ?_⟩
    · rw [hstep, if_neg hc]
      simp [hcount]
    · have hfix : addItemsFold inv ["Torch"] = inv ++ ["Torch"] := by rw [hstep, if_neg hc]
      rw [hfix, hstep]
      have hc2 : (inv ++ ["Torch"]).contains "Torch" = true := by simp
      rw [if_pos hc2]

/-- C6: on a player with a duplicate-free inventory, applying the
`addItems: ["Torch"]` effect twice in succession leaves the inventory of the
second application equal to that of the first, and that inventory contains
"Torch" exactly once — addItems has order-preserving set semantics. -/
theorem addItems_torch_idempotent (s : GameState) (i : Nat) (a : Player)
    (ha : s.players[i]? = some a) (hnd : a.inventory.Nodup) :
    ((applyEffects (applyEffects s addTorchEff i) addTorchEff i).players[i]?).map
        Player.inventory =
      ((applyEffects s addTorchEff i).players[i]?).map Player.inventory ∧
    ∀ q, (applyEffects (applyEffects s addTorchEff i) addTorchEff i).players[i]? = some q →
      q.inventory.count "Torch" = 1 := by
  have hlt : i < s.players.length := by
    rcases List.getElem?_eq_some.mp ha with ⟨hlt, _⟩
    exact hlt
  have h1p : (applyEffects s addTorchEff i).players =
      s.players.set i (applyActor a addTorchEff) := by
    rw [applyEffects_players]
    unfold playersAfter
    rw [ha]
  have h1get : (applyEffects s addTorchEff i).players[i]? =
      some (applyActor a addTorchEff) := by
    rw [h1p]
    exact List.getElem?_set_eq_of_lt _ hlt
  have h2p : (applyEffects (applyEffects s addTorchEff i) addTorchEff i).players =
      (applyEffects s addTorchEff i).players.set i
        (applyActor (applyActor a addTorchEff) addTorchEff) := by
    rw [applyEffects_players (applyEffects s addTorchEff i)]
    unfold playersAfter
    rw [h1get]
  have hlt2 : i < (applyEffects s addTorchEff i).players.length := by
    rw [h1p, List.length_set]
    exact hlt
  have h2get : (applyEffects (applyEffects s addTorchEff i) addTorchEff i).players[i]? =
      some (applyActor (applyActor a addTorchEff) addTorchEff) := by
    rw [h2p]
    exact List.getElem?_set_eq_of_lt _ hlt2
  have hinv1 : (applyActor a addTorchEff).inventory = addItemsFold a.inventory ["Torch"] := rfl
  have hinv2 : (applyActor (applyActor a addTorchEff) addTorchEff).inventory =
      addItemsFold (applyActor a addTorchEff).inventory ["Torch"] := rfl
  obtain ⟨hcnt, hidem⟩ := addOne_torch a.inventory hnd
  constructor
  · rw [h2get, h1get]
    simp only [Option.map_some']
    rw [hinv2, hinv1, hidem]
  · intro q hq
    rw [h2get] at hq
    injection hq with hq'
    rw [← hq', hinv2, hinv1, hidem]
    exact hcnt

theorem addItems_torch_idempotent_witness :
    (sampleState.players[0]? = some samplePlayer ∧ samplePlayer.inventory.Nodup) ∧
    ((applyEffects (applyEffects sampleState addTorchEff 0) addTorchEff 0).players[0]?).map
        Player.inventory =
      ((applyEffects sampleState addTorchEff 0).players[0]?).map Player.inventory ∧
    ∀ q, (applyEffects (applyEffects sampleState addTorchEff 0) addTorchEff 0).players[0]? =
        some q →
      q.inventory.count "Torch" = 1 :=
  ⟨⟨rfl, by decide⟩, addItems_torch_idempotent sampleState 0 samplePlayer rfl (by decide)⟩

lemma splitTicks_ne_nil (l : List Char) : splitTicks l ≠ [] := by
  induction l using splitTicks.induct with
  | case1 a b c rest h _ =>
    rw [splitTicks.eq_1, if_pos h]
    simp
  | case2 a b c rest h hs ih => exact absurd hs ih
  | case3 a b c rest h p ps hs _ =>
    rw [splitTicks.eq_1, if_neg h, hs]
    simp
  | case4 l hl =>
    rw [splitTicks.eq_2 l hl]
    simp

lemma joinTicks_cons_cons (a : Char) (p : List Char) (ps : List (List Char)) :
    joinTicks ((a :: p) :: ps) = a :: joinTicks (p :: ps) := by
  cases ps <;> rfl

/-- Splitting at the delimiters loses nothing: re-joining the segments with
the delimiter restores the original text. -/
lemma joinTicks_splitTicks (l : List Char) : joinTicks (splitTicks l) = l := by
  induction l using splitTicks.induct with
  | case1 a b c rest h ih =>
    obtain ⟨ha, hb, hc⟩ := h
    rw [splitTicks.eq_1, if_pos ⟨ha, hb, hc⟩]
    rcases hs : splitTicks rest with _ | ⟨p, ps⟩
    · exact absurd hs (splitTicks_ne_nil rest)
    · rw [hs] at ih
      show [] ++ [tk, tk, tk] ++ joinTicks (p :: ps) = a :: b :: c :: rest
      rw [ih, ha, hb, hc]
      rfl
  | case2 a b c rest h hs ih => exact absurd hs (splitTicks_ne_nil _)
  | case3 a b c rest h p ps hs ih =>
    rw [splitTicks.eq_1, if_neg h, hs]
    rw [hs] at ih
    show joinTicks ((a :: p) :: ps) = a :: b :: c :: rest
    rw [joinTicks_cons_cons, ih]
  | case4 l hl =>
    rw [splitTicks.eq_2 l hl]
    rfl

/-- With fewer than two delimiter occurrences there is no complete block, and
the global replace removes nothing. -/
lemma stripBlocks_of_no_block (l : List Char) (h : extractBlock l = none) :
    stripBlocks l = l := by
  unfold extractBlock at h
  unfold stripBlocks
  have hjoin := joinTicks_splitTicks l
  rcases hs : splitTicks l with _ | ⟨p, _ | ⟨q, _ | ⟨r, rest⟩⟩⟩
  · exact absurd hs (splitTicks_ne_nil l)
  · rw [hs] at hjoin
    show stripParts [p] = l
    rw [stripParts]
    exact hjoin
  · rw [hs] at hjoin
    show stripParts [p, q] = l
    rw [stripParts]
    exact hjoin
  · rw [hs] at h
    simp at h

/-- C7: the effects parser returns absent (not an error) whenever the raw
narrator output contains no complete delimited block — in which case the
narration is the raw output itself, merely trimmed — and likewise returns
absent whenever the first block's contents fail to parse; the narration is
always the raw output with the delimited blocks stripped and the surrounds
trimmed (`narrationOf`). -/
theorem effects_parser_absent_ok (jp : List Char → Option Json) (l : List Char) :
    (extractBlock l = none →
      safeExtractEffects jp l = none ∧ narrationOf l = jsTrim l) ∧
    (∀ b, extractBlock l = some b → jp b = none → safeExtractEffects jp l = none) := by
  constructor
  · intro h
    constructor
    · unfold safeExtractEffects
      rw [h]
    · unfold narrationOf
      rw [stripBlocks_of_no_block l h]
  · intro b hb hjp
    unfold safeExtractEffects
    rw [hb]
    show (match jp b with
          | some v => if isTruthyObject v then some v else none
          | none => none) = none
    rw [hjp]

theorem effects_parser_absent_ok_witness :
    (extractBlock "Brak bloku efektow.".data = none ∧
      safeExtractEffects jpFail "Brak bloku efektow.".data = none ∧
      narrationOf "Brak bloku efektow.".data = jsTrim "Brak bloku efektow.".data) ∧
    (extractBlock "Tekst ```zepsuty blok``` dalszy tekst".data = some "zepsuty blok".data ∧
      safeExtractEffects jpFail "Tekst ```zepsuty blok``` dalszy tekst".data = none) := by
  have h1 : extractBlock "Brak bloku efektow.".data = none := by decide
  have h2 : extractBlock "Tekst ```zepsuty blok``` dalszy tekst".data =
      some "zepsuty blok".data := by decide
  exact ⟨⟨h1, ((effects_parser_absent_ok jpFail "Brak bloku efektow.".data).1 h1).1,
          ((effects_parser_absent_ok jpFail "Brak bloku efektow.".data).1 h1).2⟩,
        ⟨h2, (effects_parser_absent_ok jpFail
            "Tekst ```zepsuty blok``` dalszy tekst".data).2 "zepsuty blok".data h2 rfl⟩⟩

/-- C8: on the action text "Atakuję wilka" the combat keyword "atak" matches,
so the relevant stat is strength for every class (and for no class at all);
the per-class default (Wojownik→strength, Łotrzyk→dexterity,
Mag/Zielarz→wisdom, null→strength) only decides on keyword-free text. -/
theorem attack_text_selects_strength :
    ∀ cls : Option GameClass,
      guessRelevantStat "Atakuję wilka".data cls = StatKey.strength ∧
      guessRelevantStat "Idę dalej".data cls =
        (match cls with
         | some GameClass.wojownik => StatKey.strength
         | some GameClass.lotrzyk => StatKey.dexterity
         | some GameClass.mag => StatKey.wisdom
         | some GameClass.zielarz => StatKey.wisdom
         | none => StatKey.strength) := by
  intro cls
  rcases cls with _ | c
  · exact ⟨by decide, by decide⟩
  · cases c <;> exact ⟨by decide, by decide⟩

end AiRpg
